import Mathlib

/-
Verification of the `config` package of Claymore/go-config against its
specification.  The embedding models the current copy of
src/config/reader.go: strings become `List Char`, the `bufio.Reader`
becomes the list of not-yet-consumed characters, the `map[string]map
[string]string` result becomes an association list, and the Go runtime
panic that `value[:len(value)-1]` can raise is made an explicit outcome.
-/

/-- The transient reader position: remaining input, current line (1-based
once `ReadAll` has started a line) and current column, exactly the
`line`/`column` fields of the Go `Reader`. -/
structure Cursor where
  input : List Char
  line : Nat
  column : Nat
deriving DecidableEq, Repr

/-- Error kinds of reader.go: `ErrParse` and `ErrEmptySectionHeader`. -/
inductive ErrKind where
  | errParse
  | errEmptySectionHeader
deriving DecidableEq, Repr

/-- An error returned by the reader: either `io.EOF` (the only read
failure a byte-slice input can produce) or a located `ParseError`. -/
inductive Err where
  | eof
  | parseError (line column : Nat) (kind : ErrKind)
deriving DecidableEq, Repr

/-- `readRune` (reader.go lines 285-302): reads one rune, folding `\r\n`
to `\n`.  A `\r` followed by another rune that is not `\n` is returned as
a literal `\r` with the peeked rune pushed back; a `\r` that is the last
character of the stream is consumed and the subsequent read failure
(`io.EOF`, with the zero rune) is returned.  The column counter is
incremented unconditionally, like `r.column++`. -/
def readRune (c : Cursor) : Option Char × Cursor :=
  match c.input with
  | [] => (none, { c with column := c.column + 1 })
  | r1 :: rest =>
    if r1 = '\r' then
      match rest with
      | [] => (none, { c with input := [], column := c.column + 1 })
      | r2 :: rest2 =>
        if r2 = '\n' then (some '\n', { c with input := rest2, column := c.column + 1 })
        else (some '\r', { c with input := rest, column := c.column + 1 })
    else (some r1, { c with input := rest, column := c.column + 1 })

theorem readRune_nil (ln col : Nat) :
    readRune ⟨[], ln, col⟩ = (none, ⟨[], ln, col + 1⟩) := rfl

theorem readRune_cons {ch : Char} (h : ch ≠ '\r') (l : List Char) (ln col : Nat) :
    readRune ⟨ch :: l, ln, col⟩ = (some ch, ⟨l, ln, col + 1⟩) := by
  simp [readRune, h]

theorem readRune_some_len {c : Cursor} {r : Char} {c' : Cursor}
    (h : readRune c = (some r, c')) : c'.input.length < c.input.length := by
  unfold readRune at h
  rcases c with ⟨input, ln, col⟩
  cases input with
  | nil => simp at h
  | cons r1 rest =>
    by_cases h1 : r1 = '\r'
    · cases rest with
      | nil => simp [h1] at h
      | cons r2 rest2 =>
        by_cases h2 : r2 = '\n' <;>
          simp [h1, h2] at h <;> simp [← h.2] <;> omega
    · simp [h1] at h
      simp [← h.2]

theorem readRune_len (c : Cursor) : (readRune c).2.input.length ≤ c.input.length := by
  unfold readRune
  rcases c with ⟨input, ln, col⟩
  cases input with
  | nil => simp
  | cons r1 rest =>
    by_cases h1 : r1 = '\r'
    · cases rest with
      | nil => simp [h1]
      | cons r2 rest2 =>
        by_cases h2 : r2 = '\n' <;> simp [h1, h2] <;> omega
    · simp [h1]

theorem readRune_cr {c : Cursor} {c' : Cursor}
    (h : readRune c = (some '\r', c')) : c'.input ≠ [] := by
  unfold readRune at h
  rcases c with ⟨input, ln, col⟩
  cases input with
  | nil => simp at h
  | cons r1 rest =>
    by_cases h1 : r1 = '\r'
    · cases rest with
      | nil => simp [h1] at h
      | cons r2 rest2 =>
        by_cases h2 : r2 = '\n'
        · simp [h1, h2] at h
        · simp [h1, h2] at h
          rw [← h]
          simp
    · simp [h1] at h

/-- `skip` (reader.go lines 361-372): reads runes up to and including
`delim`, returning the first read error otherwise. -/
def skip (delim : Char) (c : Cursor) : Option Err × Cursor :=
  match h : readRune c with
  | (none, c1) => (some .eof, c1)
  | (some r1, c1) => if r1 = delim then (none, c1) else skip delim c1
termination_by c.input.length
decreasing_by exact readRune_some_len h


theorem skip_len (delim : Char) (c : Cursor) :
    (skip delim c).2.input.length ≤ c.input.length := by
  induction c using skip.induct delim with
  | case1 x c1 h =>
    rw [skip, h]
    have := readRune_len x
    rw [h] at this
    exact this
  | case2 x c1 h =>
    rw [skip, h]
    simp only []
    have := readRune_len x
    rw [h] at this
    simpa using this
  | case3 x r1 c1 h hne ih =>
    rw [skip, h]
    simp only [hne, if_false]
    have := readRune_some_len h
    calc (skip delim c1).2.input.length ≤ c1.input.length := ih
      _ ≤ x.input.length := le_of_lt this

/-- `parseHeader` (reader.go lines 374-401): accumulates the section name
until `]`.  The `field` argument is the accumulation buffer, reset by the
caller (Go resets `r.field` on entry).  A comment marker yields a located
`ErrParse`; an empty name at `]` yields a located `ErrEmptySectionHeader`;
after `]` the rest of the line is skipped, tolerating `io.EOF`.  On a read
failure (only `io.EOF` here) the error is returned as is, with the
section still at its zero value `""`. -/
def parseHeader (field : List Char) (c : Cursor) : List Char × Option Err × Cursor :=
  match h : readRune c with
  | (none, c1) => ([], some .eof, c1)
  | (some r1, c1) =>
    if r1 = '#' ∨ r1 = ';' then
      ([], some (.parseError c1.line c1.column .errParse), c1)
    else if r1 = ']' then
      if field = [] then
        ([], some (.parseError c1.line c1.column .errEmptySectionHeader), c1)
      else
        let s := skip '\n' c1
        if s.1 = none ∨ s.1 = some .eof then (field, none, s.2)
        else (field, s.1, s.2)
    else parseHeader (field ++ [r1]) c1
termination_by c.input.length
decreasing_by exact readRune_some_len h

/-- The zero value of Go's `rune` type, the initial `lastRune`. -/
def nulChar : Char := Char.ofNat 0

/-- Outcome of `parseOption`: either the Go runtime panic raised by
`value[:len(value)-1]` on an empty value, or the returned
`(key, value, err)` triple together with the final reader state. -/
inductive POut where
  | panicked (c : Cursor)
  | ret (key value : List Char) (e : Option Err) (c : Cursor)
deriving DecidableEq, Repr

/-- Final reader state of a `parseOption` outcome. -/
def POut.cur : POut → Cursor
  | .panicked c => c
  | .ret _ _ _ c => c

/-- Whether `parseOption` ended in the runtime panic. -/
def POut.isPanicked : POut → Bool
  | .panicked _ => true
  | .ret _ _ _ _ => false

/-- The returned `key` of a non-panicking `parseOption`. -/
def POut.key : POut → List Char
  | .panicked _ => []
  | .ret k _ _ _ => k

/-- The returned `value` of a non-panicking `parseOption`. -/
def POut.value : POut → List Char
  | .panicked _ => []
  | .ret _ v _ _ => v

/-- The returned `err` of a non-panicking `parseOption`. -/
def POut.err : POut → Option Err
  | .panicked _ => none
  | .ret _ _ e _ => e

/-- `parseOption` (reader.go lines 403-444).  Arguments mirror the local
state: `key` (zero value `""` until a delimiter is found), `field` the
accumulation buffer (caller passes `[]`, as Go resets `r.field` on
entry), `lastRune` (zero value `nulChar`), `foundDelim`.
At `io.EOF` the buffer is the value and no error is reported.  When the
last rune was the zero value or a space and the next is `#` or `;`, the
buffer is the value: Go evaluates `value[:len(value)-1]`, a runtime
panic when the buffer is empty, then returns with `r.skip('\n')`'s
error.  The first `=` or `:` ends the key and `r.skip(' ')` discards
runes up to and including the next space, its error thrown away; later
delimiters are ordinary value runes.  A `\n` ends the value. -/
def parseOption (key field : List Char) (lastRune : Char) (foundDelim : Bool) (c : Cursor) : POut :=
  match h : readRune c with
  | (none, c1) => .ret key field none c1
  | (some r1, c1) =>
    if (lastRune = nulChar ∨ lastRune = ' ') ∧ (r1 = '#' ∨ r1 = ';') then
      if field = [] then .panicked c1
      else
        let s := skip '\n' c1
        .ret key field.dropLast s.1 s.2
    else if r1 = '=' ∨ r1 = ':' then
      if foundDelim then
        parseOption key (field ++ [r1]) r1 foundDelim c1
      else
        parseOption field [] lastRune true (skip ' ' c1).2
    else if r1 = '\n' then
      .ret key field none c1
    else
      parseOption key (field ++ [r1]) r1 foundDelim c1
termination_by c.input.length
decreasing_by
  · exact readRune_some_len h
  · exact lt_of_le_of_lt (skip_len ' ' c1) (readRune_some_len h)
  · exact readRune_some_len h

theorem parseHeader_len (field : List Char) (c : Cursor) :
    (parseHeader field c).2.2.input.length ≤ c.input.length := by
  induction field, c using parseHeader.induct
  case case1 f x c1 h =>
    rw [parseHeader, h]
    have := readRune_len x
    rw [h] at this
    simpa using this
  case case2 f x r1 c1 h hm =>
    rw [parseHeader, h]
    simp only [hm, if_pos]
    have := readRune_len x
    rw [h] at this
    simpa using this
  case case3 x c1 h hm =>
    rw [parseHeader, h]
    simp
    exact le_of_lt (readRune_some_len h)
  case case6 f x r1 c1 h hm hb ih =>
    rw [parseHeader, h]
    simp only [hm, hb]
    simp
    exact le_trans ih (le_of_lt (readRune_some_len h))
  all_goals
    rename_i hfield s hs hread hm
    rw [parseHeader, hread]
    simp [hfield]
    split
    all_goals simpa using le_trans (skip_len '\n' _) (le_of_lt (readRune_some_len hread))

theorem parseOption_le (key field : List Char) (lastRune : Char) (foundDelim : Bool) (c : Cursor) :
    (parseOption key field lastRune foundDelim c).cur.input.length ≤ c.input.length := by
  induction key, field, lastRune, foundDelim, c using parseOption.induct
  case case1 k f lr fd x c1 h =>
    rw [parseOption, h]
    have := readRune_len x
    rw [h] at this
    simpa [POut.cur] using this
  case case2 k lr fd x r1 c1 h hcm =>
    rw [parseOption, h]
    simp [hcm, POut.cur]
    exact le_of_lt (readRune_some_len h)
  case case3 k f lr fd x r1 c1 h hcm hf =>
    rw [parseOption, h]
    simp [hcm, hf, POut.cur]
    exact le_trans (skip_len '\n' c1) (le_of_lt (readRune_some_len h))
  case case4 k f lr x r1 c1 h hnc hd ih =>
    rw [parseOption, h]
    simp [hnc, hd, POut.cur]
    exact le_trans ih (le_of_lt (readRune_some_len h))
  case case5 k f lr fd x r1 c1 h hnc hd hfd ih =>
    rw [parseOption, h]
    simp [hnc, hd, hfd, POut.cur]
    exact le_trans ih (le_trans (skip_len ' ' c1) (le_of_lt (readRune_some_len h)))
  case case6 k f lr fd x c1 h hnc hnd =>
    rw [parseOption, h]
    simp [hnc, POut.cur]
    exact le_of_lt (readRune_some_len h)
  case case7 k f lr fd x r1 c1 h hnc hnd hnn ih =>
    rw [parseOption, h]
    simp [hnc, hnd, hnn, POut.cur]
    exact le_trans ih (le_of_lt (readRune_some_len h))

theorem readRune_none_len {c : Cursor} {c1 : Cursor} (hne : c.input ≠ [])
    (h : readRune c = (none, c1)) : c1.input.length < c.input.length := by
  unfold readRune at h
  rcases c with ⟨input, ln, col⟩
  cases input with
  | nil => exact absurd rfl hne
  | cons r1 rest =>
    by_cases h1 : r1 = '\r'
    · cases rest with
      | nil =>
        simp [h1] at h
        rw [← h]
        simp
      | cons r2 rest2 =>
        by_cases h2 : r2 = '\n' <;> simp [h1, h2] at h
    · simp [h1] at h

theorem parseOption_lt (key field : List Char) (lastRune : Char) (foundDelim : Bool)
    (c : Cursor) (hne : c.input ≠ []) :
    (parseOption key field lastRune foundDelim c).cur.input.length < c.input.length := by
  rcases hr : readRune c with ⟨o, c1⟩
  cases o with
  | none =>
    rw [parseOption, hr]
    simp [POut.cur]
    exact readRune_none_len hne hr
  | some r1 =>
    have hlt := readRune_some_len hr
    rw [parseOption, hr]
    by_cases hcm : (lastRune = nulChar ∨ lastRune = ' ') ∧ (r1 = '#' ∨ r1 = ';')
    · by_cases hf : field = []
      · simp [hcm, hf, POut.cur]
        exact hlt
      · simp [hcm, hf, POut.cur]
        exact lt_of_le_of_lt (skip_len '\n' c1) hlt
    · by_cases hd : r1 = '=' ∨ r1 = ':'
      · by_cases hfd : foundDelim = true
        · simp [hcm, hd, hfd, POut.cur]
          exact lt_of_le_of_lt (parseOption_le _ _ _ _ _) hlt
        · simp [hcm, hd, hfd, POut.cur]
          exact lt_of_le_of_lt (le_trans (parseOption_le _ _ _ _ _) (skip_len ' ' c1)) hlt
      · by_cases hn : r1 = '\n'
        · simp [hcm, hd, hn, POut.cur]
          exact hlt
        · simp [hcm, hd, hn, POut.cur]
          exact lt_of_le_of_lt (parseOption_le _ _ _ _ _) hlt

/-- A section's option map `map[string]string`, as an association list
with unique keys. -/
abbrev OptMap := List (List Char × List Char)

/-- The parse result `map[string]map[string]string`, as an association
list from section name to option map. -/
abbrev Doc := List (List Char × OptMap)

/-- Go map read `m[s]` (comma-ok form). -/
def lookupSec : Doc → List Char → Option OptMap
  | [], _ => none
  | (name, om) :: rest, s => if name = s then some om else lookupSec rest s

/-- The `_, ok := sections[s]` test. -/
def hasSec (d : Doc) (s : List Char) : Bool := (lookupSec d s).isSome

/-- Go map write `m[k] = v` on an option map. -/
def setOpt : OptMap → List Char → List Char → OptMap
  | [], k, v => [(k, v)]
  | (k', v') :: rest, k, v =>
    if k' = k then (k, v) :: rest else (k', v') :: setOpt rest k v

/-- Go map write `sections[s] = om`. -/
def setSec : Doc → List Char → OptMap → Doc
  | [], s, om => [(s, om)]
  | (name, om') :: rest, s, om =>
    if name = s then (s, om) :: rest else (name, om') :: setSec rest s om

/-- Go `sections[sec][key] = value`: reading a missing section gives the
nil map, and writing into a nil map is a runtime panic, modelled as
`none`. -/
def insertOpt (d : Doc) (sec key value : List Char) : Option Doc :=
  match lookupSec d sec with
  | none => none
  | some om => some (setSec d sec (setOpt om key value))

/-- `unicode.IsSpace`, as used by `strings.TrimSpace`: space, `\t`,
`\n`, `\v`, `\f`, `\r`, NEL, NBSP, and the White_Space code points above
Latin-1. -/
def goIsSpace (ch : Char) : Bool :=
  ch == ' ' || ch == '\t' || ch == '\n' || ch == Char.ofNat 11 ||
  ch == Char.ofNat 12 || ch == '\r' || ch == Char.ofNat 133 ||
  ch == Char.ofNat 160 || ch == Char.ofNat 0x1680 ||
  (decide (Char.ofNat 0x2000 ≤ ch) && decide (ch ≤ Char.ofNat 0x200A)) ||
  ch == Char.ofNat 0x2028 || ch == Char.ofNat 0x2029 ||
  ch == Char.ofNat 0x202F || ch == Char.ofNat 0x205F || ch == Char.ofNat 0x3000

/-- `strings.TrimSpace`: drop leading and trailing white space. -/
def trimSpace (s : List Char) : List Char :=
  ((s.dropWhile goIsSpace).reverse.dropWhile goIsSpace).reverse

/-- The initial `currentSection` set by `NewReader`. -/
def defaultName : List Char := ['d', 'e', 'f', 'a', 'u', 'l', 't']

/-- Models `r.unreadRune()` called right after `readRune` returned `r1`
(its only call site, ReadAll's default branch).  `bufio.UnreadRune`
fails, leaving the buffer untouched, when the most recent operation on
the buffer was itself an `UnreadRune` — which is exactly when `readRune`
took its carriage-return pushback path, i.e. when it returned `'\r'`.
Otherwise the single rune bufio last delivered (for a folded `\r\n`
pair, the `'\n'`) is pushed back.  The column counter is decremented
unconditionally. -/
def unreadRune (r1 : Char) (c : Cursor) : Cursor :=
  if r1 = '\r' then { c with column := c.column - 1 }
  else { c with input := r1 :: c.input, column := c.column - 1 }

/-- One observable step of `ReadAll`: a section header was parsed, or an
option with a (trimmed, non-empty) key was inserted into a section. -/
inductive Event where
  | header (s : List Char)
  | insert (sec key : List Char)
deriving DecidableEq, Repr

/-- Outcome of `ReadAll`: a complete document, an error (the document
built so far is discarded, Go returns `nil`), or a runtime panic. -/
inductive ROut where
  | ok (d : Doc)
  | err (e : Err)
  | panicked
deriving DecidableEq, Repr

/-- The loop of `ReadAll` (reader.go lines 315-358), carrying the
accumulated `sections` and `r.currentSection`.  Each iteration
increments the line counter, resets the column, reads one rune; EOF ends
the scan successfully; `#`/`;` skip the line (error ignored); `[` parses
a header, aborting on its error, else records the section (creating it
if new) and makes it current; any other rune is pushed back and the line
parsed as an option, aborting on error, inserting only when the trimmed
key is non-empty, creating the `default` section on first use.  The
event list records headers and insertions in order. -/
def lineStart (c : Cursor) : Cursor := { c with line := c.line + 1, column := 0 }

def readAllLoop (d : Doc) (current : List Char) (c : Cursor) : ROut × List Event :=
  let c0 : Cursor := lineStart c
  match h : readRune c0 with
  | (none, _) => (.ok d, [])
  | (some r1, c1) =>
    if r1 = '#' ∨ r1 = ';' then
      readAllLoop d current (skip '\n' c1).2
    else if r1 = '[' then
      let p := parseHeader [] c1
      match p.2.1 with
      | some e => (.err e, [])
      | none =>
        let d1 := if hasSec d p.1 then d else d ++ [(p.1, [])]
        let rest := readAllLoop d1 p.1 p.2.2
        (rest.1, .header p.1 :: rest.2)
    else
      let po := parseOption [] [] nulChar false (unreadRune r1 c1)
      if po.isPanicked then (.panicked, [])
      else
        match po.err with
        | some e1 => (.err e1, [])
        | none =>
          let key1 := trimSpace po.key
          if key1 = [] then readAllLoop d current po.cur
          else
            let d1 := if current = defaultName ∧ ¬hasSec d defaultName then
                        d ++ [(defaultName, [])]
                      else d
            match insertOpt d1 current key1 po.value with
            | none => (.panicked, [])
            | some d2 =>
              let rest := readAllLoop d2 current po.cur
              (rest.1, .insert current key1 :: rest.2)
termination_by c.input.length
decreasing_by
  · have hlt := readRune_some_len h
    have hc : c0.input.length = c.input.length := rfl
    have hs := skip_len '\n' c1
    omega
  · have hlt := readRune_some_len h
    have hc : c0.input.length = c.input.length := rfl
    have hs := parseHeader_len [] c1
    omega
  all_goals
    have hlt := readRune_some_len h
    have hc : c0.input.length = c.input.length := rfl
    by_cases hcr : r1 = '\r'
    · have hcn : c1.input ≠ [] := readRune_cr (hcr ▸ h)
      have he : (unreadRune r1 c1).input = c1.input := by simp [unreadRune, hcr]
      have h2 := parseOption_lt [] [] nulChar false (unreadRune r1 c1) (he ▸ hcn)
      simp only [he] at h2
      omega
    · have he : (unreadRune r1 c1).input = r1 :: c1.input := by simp [unreadRune, hcr]
      have h2 := parseOption_lt [] [] nulChar false (unreadRune r1 c1) (by simp [he])
      rw [he] at h2
      simp only [List.length_cons] at h2
      omega

/-- `ReadAll` with its event trace, on a fresh reader over `input`
(`NewReader` starts with `line = 0`, `column = 0`,
`currentSection = "default"`, and the empty `sections` map). -/
def readAllEv (input : List Char) : ROut × List Event :=
  readAllLoop [] defaultName ⟨input, 0, 0⟩

/-- `ReadAll` (reader.go lines 315-358) on a fresh reader over `input`. -/
def ReadAll (input : List Char) : ROut :=
  (readAllEv input).1

/-- An insertion event occurs before any header event, i.e. some option
line contributed an entry before the first section header. -/
def insertBeforeHeader : List Event → Bool
  | Event.insert _ _ :: _ => true
  | _ => false

/-- Characters that are inert for `parseOption`: not a delimiter, not a
comment marker, not a line end, not a carriage return. -/
def Plain (L : List Char) : Prop :=
  ∀ ch ∈ L, ch ≠ '=' ∧ ch ≠ ':' ∧ ch ≠ '#' ∧ ch ≠ ';' ∧ ch ≠ '\n' ∧ ch ≠ '\r'

theorem parseOption_plain (L : List Char) (hL : Plain L) :
    ∀ (key field : List Char) (lastR : Char) (fd : Bool) (rest : List Char) (ln col : Nat),
    parseOption key field lastR fd ⟨L ++ rest, ln, col⟩ =
      parseOption key (field ++ L) (L.getLastD lastR) fd ⟨rest, ln, col + L.length⟩ := by
  induction L with
  | nil => intro key field lastR fd rest ln col; simp
  | cons ch L2 ih =>
    intro key field lastR fd rest ln col
    have hch := hL ch (by simp)
    have hL2 : Plain L2 := fun x hx => hL x (by simp [hx])
    simp only [List.cons_append]
    rw [parseOption, readRune_cons hch.2.2.2.2.2 (L2 ++ rest) ln col]
    simp only []
    rw [if_neg (by
      intro hcontra
      rcases hcontra.2 with h' | h'
      · exact hch.2.2.1 h'
      · exact hch.2.2.2.1 h')]
    rw [if_neg (by
      intro hcontra
      rcases hcontra with h' | h'
      · exact hch.1 h'
      · exact hch.2.1 h')]
    rw [if_neg hch.2.2.2.2.1]
    rw [ih hL2 key (field ++ [ch]) ch fd rest ln (col + 1)]
    have harith : col + 1 + L2.length = col + (L2.length + 1) := by omega
    rw [List.getLastD_cons, harith]
    simp

theorem lineStart_mk (input : List Char) (ln col : Nat) :
    lineStart ⟨input, ln, col⟩ = ⟨input, ln + 1, 0⟩ := rfl

theorem skip_found {delim : Char} (h : delim ≠ '\r') (l : List Char) (ln col : Nat) :
    skip delim ⟨delim :: l, ln, col⟩ = (none, ⟨l, ln, col + 1⟩) := by
  rw [skip, readRune_cons h l ln col]
  simp

theorem readRune_mem {c : Cursor} {r : Char} {c' : Cursor}
    (h : readRune c = (some r, c')) : r ∈ c.input := by
  unfold readRune at h
  rcases c with ⟨input, ln, col⟩
  cases input with
  | nil => simp at h
  | cons r1 rest =>
    by_cases h1 : r1 = '\r'
    · cases rest with
      | nil => simp [h1] at h
      | cons r2 rest2 =>
        by_cases h2 : r2 = '\n'
        · simp [h1, h2] at h
          simp [h1, h2, ← h.1]
        · simp [h1, h2] at h
          simp [h1, ← h.1]
    · simp [h1] at h
      simp [← h.1]

theorem readRune_sub {c : Cursor} {o : Option Char} {c' : Cursor}
    (h : readRune c = (o, c')) : ∀ x ∈ c'.input, x ∈ c.input := by
  unfold readRune at h
  rcases c with ⟨input, ln, col⟩
  cases input with
  | nil =>
    simp at h
    simp [← h.2]
  | cons r1 rest =>
    by_cases h1 : r1 = '\r'
    · cases rest with
      | nil =>
        simp [h1] at h
        simp [← h.2]
      | cons r2 rest2 =>
        by_cases h2 : r2 = '\n'
        · simp [h1, h2] at h
          intro x hx
          rw [← h.2] at hx
          simp at hx
          simp [hx]
        · simp [h1, h2] at h
          intro x hx
          rw [← h.2] at hx
          simp at hx
          simp [hx]
    · simp [h1] at h
      intro x hx
      rw [← h.2] at hx
      simp at hx
      simp [hx]

theorem skip_eof (delim : Char) (c : Cursor) (h : delim ∉ c.input) :
    (skip delim c).1 = some .eof := by
  revert h
  induction c using skip.induct delim with
  | case1 x c1 hr =>
    intro h
    rw [skip, hr]
  | case2 x c1 hr =>
    intro h
    exact absurd (readRune_mem hr) h
  | case3 x r1 c1 hr hne ih =>
    intro h
    rw [skip, hr]
    simp only [hne, if_false]
    exact ih fun hm => h (readRune_sub hr delim hm)

theorem parseOption_plain_line (L : List Char) (hL : Plain L) (key field : List Char)
    (lastR : Char) (fd : Bool) (rest : List Char) (ln col : Nat) :
    parseOption key field lastR fd ⟨L ++ '\n' :: rest, ln, col⟩ =
      .ret key (field ++ L) none ⟨rest, ln, col + L.length + 1⟩ := by
  rw [parseOption_plain L hL key field lastR fd ('\n' :: rest) ln col]
  rw [parseOption, readRune_cons (by decide) rest ln (col + L.length)]
  simp

theorem readAllLoop_nil (d : Doc) (current : List Char) (ln col : Nat) :
    readAllLoop d current ⟨[], ln, col⟩ = (.ok d, []) := by
  rw [readAllLoop]
  simp [lineStart_mk, readRune_nil]

/-- C1 (corrected): an option line containing no `=`/`:` delimiter before
its line feed completes without error, but the whole line becomes the
VALUE while the key stays at its zero value `""`; the trimmed key is
therefore empty and `ReadAll` inserts nothing for that line. -/
theorem c1_no_delimiter_line (hd : Char) (tl : List Char) (hhd : hd ≠ '[')
    (hplain : Plain (hd :: tl)) :
    parseOption [] [] nulChar false ⟨(hd :: tl) ++ ['\n'], 1, 0⟩ =
      .ret [] (hd :: tl) none ⟨[], 1, tl.length + 2⟩ ∧
    ReadAll ((hd :: tl) ++ ['\n']) = .ok [] := by
  have hch := hplain hd (by simp)
  have hpo := parseOption_plain_line (hd :: tl) hplain [] [] nulChar false [] 1 0
  constructor
  · rw [hpo]
    simp
  · rw [ReadAll, readAllEv, readAllLoop]
    simp only [lineStart_mk, List.cons_append]
    simp only [List.cons_append] at hpo
    rw [readRune_cons hch.2.2.2.2.2]
    simp only []
    rw [if_neg (by
      intro hcontra
      rcases hcontra with h' | h'
      · exact hch.2.2.1 h'
      · exact hch.2.2.2.1 h')]
    rw [if_neg hhd]
    have hu : unreadRune hd ⟨tl ++ ['\n'], 1, 1⟩ = ⟨hd :: (tl ++ ['\n']), 1, 0⟩ := by
      simp [unreadRune, hch.2.2.2.2.2]
    rw [hu, hpo]
    simp [POut.isPanicked, POut.err, POut.key, POut.cur, trimSpace, readAllLoop_nil]

/-- C1 witness: the delimiterless line "abc" parses to key `""`, value
"abc", and `ReadAll` of "abc\n" yields the empty document. -/
theorem c1_witness :
    parseOption [] [] nulChar false ⟨['a', 'b', 'c', '\n'], 1, 0⟩ =
      .ret [] ['a', 'b', 'c'] none ⟨[], 1, 4⟩ ∧
    ReadAll ['a', 'b', 'c', '\n'] = .ok [] := by
  have h := c1_no_delimiter_line 'a' ['b', 'c'] (by decide) (by unfold Plain; decide)
  simpa using h

/-- C1 counterexample: the claim fails on concrete delimiterless option
lines in three ways.  For "abc\n" it predicts a document whose current
(default) section maps key "abc" to `""`, but the code returns the empty
document with no such key.  For "\r#x\n" (the literal carriage return
sends ReadAll to the option branch, then the marker is seen with an
empty buffer and `value[:len(value)-1]` is a runtime panic) parseOption
does NOT complete, and the abort is not an underlying read failure.
For "a #b\n" the line completes without error but yields the truncated
value "a" with an empty key, not the whole line. -/
theorem c1_counterexample :
    (ReadAll ['a', 'b', 'c', '\n'] = .ok [] ∧ lookupSec ([] : Doc) defaultName = none) ∧
    ReadAll "\r#x\n".toList = .panicked ∧
    parseOption [] [] nulChar false ⟨"a #b\n".toList, 1, 0⟩ = .ret [] ['a'] none ⟨[], 1, 5⟩ ∧
    ReadAll "a #b\n".toList = .ok [] := by
  refine ⟨⟨?_, rfl⟩, ?_, ?_, ?_⟩ <;>
    simp [ReadAll, readAllEv, readAllLoop, parseOption, skip, readRune, unreadRune,
      lineStart, trimSpace, goIsSpace, nulChar, POut.cur, POut.isPanicked, POut.key,
      POut.value, POut.err]

/-- C2 (code bug): on "k = #rest\n" the comment marker is seen right
after the delimiter's space skipping, while the value buffer is empty;
Go evaluates `value[:len(value)-1]` with `len(value) = 0`, a runtime
panic (slice bounds out of range), instead of returning an empty value. -/
theorem c2_comment_empty_value_panics :
    parseOption [] [] nulChar false ⟨"k = #rest\n".toList, 1, 0⟩ =
      .panicked ⟨"rest\n".toList, 1, 5⟩ ∧
    ReadAll "k = #rest\n".toList = .panicked := by
  constructor
  · simp [parseOption, skip, readRune, nulChar]
  · simp [ReadAll, readAllEv, readAllLoop, parseOption, skip, readRune, unreadRune,
      lineStart, trimSpace, goIsSpace, nulChar, POut.cur, POut.isPanicked, POut.key,
      POut.value, POut.err]

/-- C3 (code bug): "[]\n" fails with a located `ParseError` at line 1
(kind empty-section-header), but end of input inside an unterminated
header ("[unterminated\n" — the `\n` is accumulated into the name, so the
header is still open at EOF) is returned as the bare, unlocated `io.EOF`,
not as a located invalid-section-header error; the repository's own tests
expect a `ParseError` wrapping `ErrInvalidSectionHeader` here. -/
theorem c3_unterminated_header_errors :
    ReadAll "[]\n".toList = .err (.parseError 1 2 .errEmptySectionHeader) ∧
    ReadAll "[unterminated\n".toList = .err .eof := by
  constructor
  · simp [ReadAll, readAllEv, readAllLoop, parseHeader, skip, readRune,
      lineStart, POut.cur, POut.isPanicked, POut.key, POut.value, POut.err]
  · simp [ReadAll, readAllEv, readAllLoop, parseHeader, skip, readRune,
      lineStart, POut.cur, POut.isPanicked, POut.key, POut.value, POut.err]

/-- C4 (code bug): after the first delimiter, `r.skip(' ')` reads up to
and INCLUDING the first space, consuming non-space characters on the
way: "a=b\n" loses `b` and the line feed to the space hunt and stores
value `""`; "a=  b\n" consumes only the first of the two spaces and
stores " b"; only the one-space form "a= b\n" yields "b". -/
theorem c4_delimiter_space_skipping :
    ReadAll "a=b\n".toList = .ok [(defaultName, [(['a'], [])])] ∧
    ReadAll "a=  b\n".toList = .ok [(defaultName, [(['a'], [' ', 'b'])])] ∧
    ReadAll "a= b\n".toList = .ok [(defaultName, [(['a'], ['b'])])] := by
  refine ⟨?_, ?_, ?_⟩ <;>
    simp [ReadAll, readAllEv, readAllLoop, parseOption, skip, readRune, unreadRune,
      lineStart, trimSpace, goIsSpace, insertOpt, lookupSec, hasSec, setSec, setOpt,
      defaultName, nulChar, POut.cur, POut.isPanicked, POut.key, POut.value, POut.err]

/-- C5 (corrected): `readRune` collapses `\r\n` into a single `\n`, and
returns a `\r` followed by a character other than `\n` as a literal
`'\r'` with the peeked character pushed back — but a carriage return
that is the LAST character of the stream is consumed and `io.EOF` is
returned in its place (the `\r` is lost), not a literal `'\r'`. -/
theorem c5_carriage_return_folding (rest : List Char) (ln col : Nat) (ch : Char) :
    readRune ⟨'\r' :: '\n' :: rest, ln, col⟩ = (some '\n', ⟨rest, ln, col + 1⟩) ∧
    (ch ≠ '\n' → readRune ⟨'\r' :: ch :: rest, ln, col⟩ = (some '\r', ⟨ch :: rest, ln, col + 1⟩)) ∧
    readRune ⟨['\r'], ln, col⟩ = (none, ⟨[], ln, col + 1⟩) := by
  refine ⟨by simp [readRune], fun h => by simp [readRune, h], rfl⟩

/-- C5 witness: a `\r` followed by `'a'` comes back as a literal `'\r'`
with the `'a'` pushed back. -/
theorem c5_witness :
    readRune ⟨'\r' :: 'a' :: [], 0, 0⟩ = (some '\r', ⟨'a' :: [], 0, 1⟩) :=
  (c5_carriage_return_folding [] 0 0 'a').2.1 (by decide)

/-- C5 counterexample: on the stream consisting of the single character
`'\r'`, `readRune` returns end-of-input, not the literal `'\r'` the
claim requires. -/
theorem c5_counterexample :
    (readRune ⟨['\r'], 0, 0⟩).1 = none ∧ (readRune ⟨['\r'], 0, 0⟩).1 ≠ some '\r' := by
  decide

/-- C6 (confirmed): in "[S]\nk: v#not-comment\n" the `#` follows the
non-space `v`, so it is not a comment start and stays in the value:
section S maps k to "v#not-comment". -/
theorem c6_marker_after_nonspace :
    ReadAll "[S]\nk: v#not-comment\n".toList =
      .ok [(['S'], [(['k'], "v#not-comment".toList)])] := by
  simp [ReadAll, readAllEv, readAllLoop, parseHeader, parseOption, skip, readRune,
    unreadRune, lineStart, trimSpace, goIsSpace, insertOpt, lookupSec, hasSec, setSec,
    setOpt, defaultName, nulChar, POut.cur, POut.isPanicked, POut.key, POut.value,
    POut.err]

/-- C7 (confirmed): in "[S]\nk = v # comment\n" the marker follows a
space, so the comment, the marker and the one separating space are all
stripped: section S maps k to "v". -/
theorem c7_inline_comment_stripped :
    ReadAll "[S]\nk = v # comment\n".toList = .ok [(['S'], [(['k'], ['v'])])] := by
  simp [ReadAll, readAllEv, readAllLoop, parseHeader, parseOption, skip, readRune,
    unreadRune, lineStart, trimSpace, goIsSpace, insertOpt, lookupSec, hasSec, setSec,
    setOpt, defaultName, nulChar, POut.cur, POut.isPanicked, POut.key, POut.value,
    POut.err]

/-- C9 (confirmed): when the final option line ends in a recognized
inline comment that is terminated by end of input instead of a line
feed — here "k = " followed by a marker-free value `v`, a space, `#`,
and a line-feed-free comment tail `cs` — the `io.EOF` hit while skipping
the comment becomes `parseOption`'s error, and `ReadAll` returns that
`io.EOF` (with the document discarded) instead of succeeding with the
truncated value. -/
theorem c9_eof_inline_comment (v cs : List Char) (hv : Plain v) (hcs : '\n' ∉ cs) :
    (parseOption [] [] nulChar false
        ⟨'k' :: ' ' :: '=' :: ' ' :: (v ++ ' ' :: '#' :: cs), 1, 0⟩).err = some .eof ∧
    ReadAll ('k' :: ' ' :: '=' :: ' ' :: (v ++ ' ' :: '#' :: cs)) = .err .eof := by
  have hv2 : Plain (v ++ [' ']) := by
    intro ch hch
    rcases List.mem_append.mp hch with h' | h'
    · exact hv ch h'
    · simp at h'
      subst h'
      exact ⟨by decide, by decide, by decide, by decide, by decide, by decide⟩
  have e1 := parseOption_plain ['k', ' '] (by unfold Plain; decide) [] [] nulChar false
    ('=' :: ' ' :: (v ++ ' ' :: '#' :: cs)) 1 0
  simp only [List.cons_append, List.nil_append] at e1
  norm_num at e1
  have e2 : parseOption [] ['k', ' '] ' ' false ⟨'=' :: ' ' :: (v ++ ' ' :: '#' :: cs), 1, 2⟩ =
      parseOption ['k', ' '] [] ' ' true ⟨v ++ ' ' :: '#' :: cs, 1, 4⟩ := by
    rw [parseOption, readRune_cons (by decide) _ 1 2]
    simp only []
    rw [if_neg (by decide), if_pos (by decide)]
    simp only [Bool.false_eq_true, if_false]
    rw [skip_found (by decide) _ 1 3]
  have e3 := parseOption_plain (v ++ [' ']) hv2 ['k', ' '] [] ' ' true ('#' :: cs) 1 4
  rw [List.append_assoc] at e3
  simp only [List.cons_append, List.nil_append] at e3
  have hlast : (v ++ [' ']).getLastD ' ' = ' ' := by
    simp [List.getLastD_eq_getLast?, List.getLast?_concat]
  rw [hlast] at e3
  have e4 : parseOption ['k', ' '] (v ++ [' ']) ' ' true ⟨'#' :: cs, 1, 4 + (v ++ [' ']).length⟩ =
      .ret ['k', ' '] v (some .eof) (skip '\n' ⟨cs, 1, 4 + (v ++ [' ']).length + 1⟩).2 := by
    rw [parseOption, readRune_cons (by decide) _ 1 _]
    simp only []
    rw [if_pos (by decide)]
    rw [if_neg (by simp)]
    have hs1 := skip_eof '\n' ⟨cs, 1, 4 + (v ++ [' ']).length + 1⟩ hcs
    rcases hsk : skip '\n' ⟨cs, 1, 4 + (v ++ [' ']).length + 1⟩ with ⟨s1, s2⟩
    rw [hsk] at hs1
    simp at hs1
    simp [hsk, hs1, List.dropLast_concat]
  have hpo : parseOption [] [] nulChar false
      ⟨'k' :: ' ' :: '=' :: ' ' :: (v ++ ' ' :: '#' :: cs), 1, 0⟩ =
      .ret ['k', ' '] v (some .eof) (skip '\n' ⟨cs, 1, 4 + (v ++ [' ']).length + 1⟩).2 := by
    rw [e1, e2, e3, e4]
  constructor
  · rw [hpo]
    rfl
  · rw [ReadAll, readAllEv, readAllLoop]
    simp only [lineStart_mk]
    rw [readRune_cons (by decide) _ 1 0]
    simp only []
    rw [if_neg (by decide), if_neg (by decide)]
    have hu : unreadRune 'k' ⟨' ' :: '=' :: ' ' :: (v ++ ' ' :: '#' :: cs), 1, 1⟩ =
        ⟨'k' :: ' ' :: '=' :: ' ' :: (v ++ ' ' :: '#' :: cs), 1, 0⟩ := by
      simp [unreadRune]
    rw [hu, hpo]
    simp [POut.isPanicked, POut.err]

/-- C9 witness: "k = v # c" (no trailing newline) makes `ReadAll` fail
with `io.EOF`. -/
theorem c9_witness :
    (parseOption [] [] nulChar false ⟨"k = v # c".toList, 1, 0⟩).err = some .eof ∧
    ReadAll "k = v # c".toList = .err .eof := by
  have h := c9_eof_inline_comment ['v'] [' ', 'c'] (by unfold Plain; decide) (by decide)
  simpa using h

/-- Go map read `m[k]` on an option map. -/
def lookupOpt : OptMap → List Char → Option (List Char)
  | [], _ => none
  | (k, v) :: rest, key => if k = key then some v else lookupOpt rest key

/-- Structural equality of documents: the same set of section names and,
per section, the same key/value lookups. -/
def docEqv (d1 d2 : Doc) : Prop :=
  (∀ s, hasSec d1 s = hasSec d2 s) ∧
  ∀ s k, (lookupSec d1 s).map (fun om => lookupOpt om k) =
    (lookupSec d2 s).map (fun om => lookupOpt om k)

/-- Two parse outcomes agree: both fail with the same error, both panic,
or both succeed with structurally equal documents. -/
def resultEqv : ROut → ROut → Prop
  | .ok d1, .ok d2 => docEqv d1 d2
  | .err e1, .err e2 => e1 = e2
  | .panicked, .panicked => True
  | _, _ => False

/-- C8 (confirmed): `ReadAll` is deterministic — two parses of the same
byte sequence, each from a fresh reader, either fail alike or produce
structurally equal documents (same section names, same per-section
key/value pairs). -/
theorem c8_deterministic (input : List Char) :
    resultEqv (ReadAll input) (ReadAll input) := by
  cases h : ReadAll input with
  | ok d => exact ⟨fun s => rfl, fun s k => rfl⟩
  | err e => exact rfl
  | panicked => exact trivial

theorem hasSec_append (d : Doc) (s : List Char) (om : OptMap) (t : List Char) :
    hasSec (d ++ [(s, om)]) t = true ↔ hasSec d t = true ∨ s = t := by
  induction d with
  | nil =>
    by_cases h : s = t <;> simp [hasSec, lookupSec, h]
  | cons p rest ih =>
    rcases p with ⟨name, om'⟩
    by_cases h : name = t <;> simp [hasSec, lookupSec, h] at ih ⊢ <;> exact ih

theorem hasSec_setSec (d : Doc) (s : List Char) (om : OptMap) (t : List Char) :
    hasSec (setSec d s om) t = true ↔ hasSec d t = true ∨ s = t := by
  induction d with
  | nil =>
    by_cases h : s = t <;> simp [hasSec, setSec, lookupSec, h]
  | cons p rest ih =>
    rcases p with ⟨name, om'⟩
    by_cases hn : name = s
    · subst hn
      by_cases h : name = t <;> simp [hasSec, setSec, lookupSec, h]
    · by_cases h : name = t
      · subst h
        simp [hasSec, setSec, lookupSec, hn]
      · simp [hasSec, setSec, lookupSec, hn, h] at ih ⊢
        exact ih

theorem insertOpt_hasSec {d : Doc} {sec key value : List Char} {d2 : Doc}
    (h : insertOpt d sec key value = some d2) (t : List Char) :
    (hasSec d2 t = true ↔ hasSec d t = true) := by
  unfold insertOpt at h
  rcases hl : lookupSec d sec with _ | om
  · rw [hl] at h
    simp at h
  · rw [hl] at h
    simp at h
    rw [← h]
    rw [hasSec_setSec]
    constructor
    · rintro (h' | h')
      · exact h'
      · subst h'
        simp [hasSec, hl]
    · exact fun h' => Or.inl h'

theorem readAllLoop_default_inv :
    ∀ (d : Doc) (current : List Char) (c : Cursor) (d2 : Doc) (evs : List Event),
      readAllLoop d current c = (.ok d2, evs) →
      hasSec d2 defaultName = true →
      hasSec d defaultName = true ∨ (current = defaultName ∧ insertBeforeHeader evs = true) ∨
        Event.header defaultName ∈ evs := by
  intro d current c
  induction d, current, c using readAllLoop.induct
  case case1 d current c c0 c1 h =>
    intro d2 evs hrun hdef
    rw [readAllLoop] at hrun
    rw [show readRune (lineStart c) = (none, c1) from h] at hrun
    simp at hrun
    rw [← hrun.1] at hdef
    exact Or.inl hdef
  case case2 d current c c0 r1 c1 h hm ih =>
    intro d2 evs hrun hdef
    rw [readAllLoop] at hrun
    rw [show readRune (lineStart c) = (some r1, c1) from h] at hrun
    simp only [hm, if_true, ite_true] at hrun
    exact ih d2 evs hrun hdef
  case case3 d current c c0 c1 p e hx h hm =>
    intro d2 evs hrun hdef
    rw [readAllLoop] at hrun
    rw [show readRune (lineStart c) = (some '[', c1) from h] at hrun
    simp only [hm, if_false, ite_false, if_pos rfl] at hrun
    rw [show (parseHeader [] c1).2.1 = some e from hx] at hrun
    simp at hrun
  case case4 d current c c0 c1 p hx d1 h hm ih =>
    intro d2 evs hrun hdef
    rw [readAllLoop] at hrun
    rw [show readRune (lineStart c) = (some '[', c1) from h] at hrun
    simp only [hm, if_false, ite_false, if_pos rfl] at hrun
    rw [show (parseHeader [] c1).2.1 = none from hx] at hrun
    simp only [] at hrun
    rcases hrest : readAllLoop (if hasSec d (parseHeader [] c1).1 = true then d
        else d ++ [((parseHeader [] c1).1, [])]) (parseHeader [] c1).1
        (parseHeader [] c1).2.2 with ⟨out, evs1⟩
    rw [show (readAllLoop (if hasSec d (parseHeader [] c1).1 = true then d
        else d ++ [((parseHeader [] c1).1, [])]) (parseHeader [] c1).1
        (parseHeader [] c1).2.2) = (out, evs1) from hrest] at hrun
    simp at hrun
    rw [hrun.1] at hrest
    rcases ih d2 evs1 hrest hdef with h2 | h2 | h2
    · have h3 : hasSec (if hasSec d (parseHeader [] c1).1 = true then d
          else d ++ [((parseHeader [] c1).1, [])]) defaultName = true := h2
      by_cases hin : hasSec d (parseHeader [] c1).1 = true
      · rw [if_pos hin] at h3
        exact Or.inl h3
      · rw [if_neg hin] at h3
        rcases (hasSec_append d (parseHeader [] c1).1 [] defaultName).mp h3 with h4 | h4
        · exact Or.inl h4
        · rw [← hrun.2, h4]
          exact Or.inr (Or.inr (by simp))
    · rw [← hrun.2, h2.1]
      exact Or.inr (Or.inr (by simp))
    · rw [← hrun.2]
      exact Or.inr (Or.inr (by simp [h2]))
  case case5 d current c c0 r1 c1 h hm hb po hpan =>
    intro d2 evs hrun hdef
    rw [readAllLoop] at hrun
    rw [show readRune (lineStart c) = (some r1, c1) from h] at hrun
    simp only [hm, hb, if_false, ite_false] at hrun
    rw [if_pos (show (parseOption [] [] nulChar false (unreadRune r1 c1)).isPanicked = true
      from hpan)] at hrun
    simp at hrun
  case case6 d current c c0 r1 c1 h hm hb po hnp e hx =>
    intro d2 evs hrun hdef
    rw [readAllLoop] at hrun
    rw [show readRune (lineStart c) = (some r1, c1) from h] at hrun
    simp only [hm, hb, if_false, ite_false] at hrun
    rw [if_neg (show ¬(parseOption [] [] nulChar false (unreadRune r1 c1)).isPanicked = true
      from hnp)] at hrun
    rw [show (parseOption [] [] nulChar false (unreadRune r1 c1)).err = some e from hx] at hrun
    simp at hrun
  case case7 d current c c0 r1 c1 h hm hb po hnp hxe key1 hk ih =>
    intro d2 evs hrun hdef
    rw [readAllLoop] at hrun
    rw [show readRune (lineStart c) = (some r1, c1) from h] at hrun
    simp only [hm, hb, if_false, ite_false] at hrun
    rw [if_neg (show ¬(parseOption [] [] nulChar false (unreadRune r1 c1)).isPanicked = true
      from hnp)] at hrun
    rw [show (parseOption [] [] nulChar false (unreadRune r1 c1)).err = none from hxe] at hrun
    simp only [] at hrun
    rw [if_pos (show trimSpace (parseOption [] [] nulChar false (unreadRune r1 c1)).key = []
      from hk)] at hrun
    exact ih d2 evs hrun hdef
  case case8 d current c c0 r1 c1 h hm hb po hnp hxe key1 hk d1 hins =>
    intro d2 evs hrun hdef
    rw [readAllLoop] at hrun
    rw [show readRune (lineStart c) = (some r1, c1) from h] at hrun
    simp only [hm, hb, if_false, ite_false] at hrun
    rw [if_neg (show ¬(parseOption [] [] nulChar false (unreadRune r1 c1)).isPanicked = true
      from hnp)] at hrun
    rw [show (parseOption [] [] nulChar false (unreadRune r1 c1)).err = none from hxe] at hrun
    simp only [] at hrun
    rw [if_neg (show ¬trimSpace (parseOption [] [] nulChar false (unreadRune r1 c1)).key = []
      from hk)] at hrun
    rw [show insertOpt (if current = defaultName ∧ ¬hasSec d defaultName = true then
        d ++ [(defaultName, [])] else d) current
        (trimSpace (parseOption [] [] nulChar false (unreadRune r1 c1)).key)
        (parseOption [] [] nulChar false (unreadRune r1 c1)).value = none from hins] at hrun
    simp at hrun
  case case9 d current c c0 r1 c1 h hm hb po hnp hxe key1 hk d1 d3 hins ih =>
    intro d2 evs hrun hdef
    rw [readAllLoop] at hrun
    rw [show readRune (lineStart c) = (some r1, c1) from h] at hrun
    simp only [hm, hb, if_false, ite_false] at hrun
    rw [if_neg (show ¬(parseOption [] [] nulChar false (unreadRune r1 c1)).isPanicked = true
      from hnp)] at hrun
    rw [show (parseOption [] [] nulChar false (unreadRune r1 c1)).err = none from hxe] at hrun
    simp only [] at hrun
    rw [if_neg (show ¬trimSpace (parseOption [] [] nulChar false (unreadRune r1 c1)).key = []
      from hk)] at hrun
    rw [show insertOpt (if current = defaultName ∧ ¬hasSec d defaultName = true then
        d ++ [(defaultName, [])] else d) current
        (trimSpace (parseOption [] [] nulChar false (unreadRune r1 c1)).key)
        (parseOption [] [] nulChar false (unreadRune r1 c1)).value = some d3 from hins] at hrun
    simp only [] at hrun
    rcases hrest : readAllLoop d3 current (parseOption [] [] nulChar false
        (unreadRune r1 c1)).cur with ⟨out, evs1⟩
    rw [show readAllLoop d3 current (parseOption [] [] nulChar false
        (unreadRune r1 c1)).cur = (out, evs1) from hrest] at hrun
    simp at hrun
    rw [hrun.1] at hrest
    rcases ih d2 evs1 hrest hdef with h2 | h2 | h2
    · have h3 := (insertOpt_hasSec hins defaultName).mp h2
      have h4 : hasSec (if current = defaultName ∧ ¬hasSec d defaultName = true then
          d ++ [(defaultName, [])] else d) defaultName = true := h3
      by_cases hcond : current = defaultName ∧ ¬hasSec d defaultName = true
      · rw [← hrun.2]
        exact Or.inr (Or.inl ⟨hcond.1, by simp [insertBeforeHeader]⟩)
      · rw [if_neg hcond] at h4
        exact Or.inl h4
    · rw [← hrun.2]
      exact Or.inr (Or.inl ⟨h2.1, by simp [insertBeforeHeader]⟩)
    · rw [← hrun.2]
      exact Or.inr (Or.inr (by simp [h2]))

/-- C10 (confirmed): a successful `ReadAll` returns a document with a
"default" entry only if an option line with a non-empty trimmed key was
parsed before any section header (the insertion event precedes every
header event), or a header literally named "default" was parsed; and
empty, comment-only and blank-line-only inputs yield a document with no
sections at all. -/
theorem c10_default_section_only_if :
    (∀ (input : List Char) (d : Doc) (evs : List Event),
      readAllEv input = (.ok d, evs) →
      hasSec d defaultName = true →
      insertBeforeHeader evs = true ∨ Event.header defaultName ∈ evs) ∧
    ReadAll [] = .ok [] ∧
    ReadAll "# only a comment\n".toList = .ok [] ∧
    ReadAll " \n\t\n".toList = .ok [] := by
  refine ⟨?_, ?_, ?_, ?_⟩
  · intro input d evs hrun hdef
    rcases readAllLoop_default_inv [] defaultName ⟨input, 0, 0⟩ d evs hrun hdef with h | h | h
    · simp [hasSec, lookupSec] at h
    · exact Or.inl h.2
    · exact Or.inr h
  · simp [ReadAll, readAllEv, readAllLoop_nil]
  · simp [ReadAll, readAllEv, readAllLoop, parseOption, skip, readRune, unreadRune,
      lineStart, trimSpace, goIsSpace, nulChar, POut.cur, POut.isPanicked, POut.key,
      POut.value, POut.err]
  · simp [ReadAll, readAllEv, readAllLoop, parseOption, skip, readRune, unreadRune,
      lineStart, trimSpace, goIsSpace, nulChar, POut.cur, POut.isPanicked, POut.key,
      POut.value, POut.err]

/-- C10 witness: parsing "a = 1\n" puts key a in the default section,
and indeed the insertion event precedes every header event. -/
theorem c10_witness :
    insertBeforeHeader [Event.insert defaultName ['a']] = true ∨
      Event.header defaultName ∈ [Event.insert defaultName ['a']] := by
  refine c10_default_section_only_if.1 "a = 1\n".toList
    [(defaultName, [(['a'], ['1'])])] [Event.insert defaultName ['a']] ?_ (by decide)
  simp [readAllEv, readAllLoop, parseOption, skip, readRune, unreadRune,
    lineStart, trimSpace, goIsSpace, insertOpt, lookupSec, hasSec, setSec, setOpt,
    defaultName, nulChar, POut.cur, POut.isPanicked, POut.key, POut.value, POut.err]
